import Mathlib

/-!
Shallow embedding of the Fit function-adaptor library (headers `by.h`,
`protect.h`, `construct.hpp` and the behaviour exercised by
`test/indirect.cpp`).

A C++ callable with observable side effects is embedded as a state-passing
function `σ → α → σ × β`: it receives the current world state and an
argument and returns the updated state together with its result.  A
variadic argument pack `xs...` is embedded as a `List`.  Pure callables are
obtained through the lifts `liftP` / `liftF` below.

Compile-time overload resolution (SFINAE) is embedded separately as a
signature layer: a callable type is summarised by a function from argument
types to `Option` of a result type, `none` meaning the call expression is
ill-formed and the overload does not participate in overload resolution.
-/

namespace fit

/-- Lift of a pure unary C++ callable (no side effects) into the
state-passing embedding. -/
def liftP {σ α β : Type} (p : α → β) : σ → α → σ × β :=
  fun s x => (s, p x)

/-- Lift of a pure variadic C++ callable (no side effects) into the
state-passing embedding. -/
def liftF {σ α β : Type} (f : List α → β) : σ → List α → σ × β :=
  fun s xs => (s, f xs)

/-- Evaluation of a list of nullary thunks in order from left to right,
threading the world state and collecting the results.  This is the argument
evaluation performed by `fit::apply_eval` before it applies its function. -/
def eval_each {σ α : Type} : List (σ → σ × α) → σ → σ × List α
  | [], s => (s, [])
  | e :: es, s =>
    let r := e s
    let rest := eval_each es r.1
    (rest.1, r.2 :: rest.2)

/-- Modelled from the spec: `fit/apply_eval.hpp` is included by `by.h` but is
not among the sources.  Its documented behaviour, relied upon by `by.h`
("All projections are always evaluated in order from left-to-right"), is to
evaluate each nullary eval-able in order from left to right and then apply
the function to the results. -/
def apply_eval {σ α β : Type} (f : σ → List α → σ × β)
    (es : List (σ → σ × α)) (s : σ) : σ × β :=
  let r := eval_each es s
  f r.1 r.2

/-- Embedding of `fit::detail::project_eval` (by.h): a nullary thunk that
captures an argument `x` and the projection `p` and, when invoked, returns
`p(x)`. -/
def project_eval {σ α β : Type} (p : σ → α → σ × β) (x : α) : σ → σ × β :=
  fun s => p s x

/-- Embedding of `fit::detail::project_void_eval` (by.h): a nullary thunk
that invokes `p(x)` for its side effects and discards the result, returning
the marker type `void_` (embedded as `Unit`). -/
def project_void_eval {σ α β : Type} (p : σ → α → σ × β) (x : α) :
    σ → σ × Unit :=
  fun s => ((p s x).1, ())

/-- Embedding of `fit::always()` as used by `by_void_eval`: a callable that
ignores its arguments and returns nothing. -/
def always_unit {σ : Type} : σ → List Unit → σ × Unit :=
  fun s _ => (s, ())

/-- Embedding of `fit::detail::by_eval` (by.h, lines 141-148): applies `f`
through `fit::apply_eval` to one `project_eval` thunk per argument, so each
argument is projected by `p` before `f` is invoked. -/
def by_eval {σ α β γ : Type} (p : σ → α → σ × β) (f : σ → List β → σ × γ)
    (xs : List α) (s : σ) : σ × γ :=
  apply_eval f (xs.map (project_eval p)) s

/-- Embedding of `fit::detail::by_void_eval` (by.h, lines 160-164): invokes
the projection on every argument through `apply_eval` with `fit::always()`,
discarding all projection results. -/
def by_void_eval {σ α β : Type} (p : σ → α → σ × β) (xs : List α) (s : σ) :
    σ × Unit :=
  apply_eval always_unit (xs.map (project_void_eval p)) s

/-- Embedding of `fit::by_adaptor<Projection, F>` (by.h): a compressed pair
holding the projection (`first`) and the wrapped function (`second`). -/
structure by_adaptor (σ α β γ : Type) where
  first : σ → α → σ × β
  second : σ → List β → σ × γ

/-- Embedding of `fit::by_adaptor<Projection, F>::operator() const` (by.h,
lines 215-224): forwards the stored projection, the stored function and the
arguments to `detail::by_eval`. -/
def by_adaptor.call {σ α β γ : Type} (a : by_adaptor σ α β γ)
    (xs : List α) (s : σ) : σ × γ :=
  by_eval a.first a.second xs s

/-- Embedding of the specialisation `fit::by_adaptor<Projection, void>`
(by.h, lines 227-260), produced by the unary form `by(p)`: it stores only
the projection. -/
structure by_adaptor_void (σ α β : Type) where
  proj : σ → α → σ × β

/-- Embedding of `fit::by_adaptor<Projection, void>::operator() const`
(by.h, lines 246-259), default configuration: the braced-init-list
`detail::swallow{(proj(xs), 0)...}` evaluates `proj` on each argument in
order from left to right, discards every result, and the call returns
`void` (embedded as `Unit`). -/
def by_adaptor_void.call {σ α β : Type} (a : by_adaptor_void σ α β) :
    List α → σ → σ × Unit
  | [], s => (s, ())
  | x :: xs, s => by_adaptor_void.call a xs (a.proj s x).1

/-- Specification-side definition (not from the source): the projection
applied to the arguments strictly in left-to-right order, threading the
state through each application and collecting the projected values. -/
def project_left_to_right {σ α β : Type} (p : σ → α → σ × β) :
    List α → σ → σ × List β
  | [], s => (s, [])
  | x :: xs, s =>
    let r := p s x
    let rest := project_left_to_right p xs r.1
    (rest.1, r.2 :: rest.2)

theorem eval_each_map_project {σ α β : Type} (p : σ → α → σ × β)
    (xs : List α) (s : σ) :
    eval_each (xs.map (project_eval p)) s = project_left_to_right p xs s := by
  induction xs generalizing s with
  | nil => rfl
  | cons x xs ih =>
    simp [eval_each, project_eval, project_left_to_right, ih]

theorem project_left_to_right_pure {σ α β : Type} (p : α → β)
    (xs : List α) (s : σ) :
    project_left_to_right (liftP p) xs s = (s, xs.map p) := by
  induction xs generalizing s with
  | nil => rfl
  | cons x xs ih =>
    simp [project_left_to_right, liftP, ih]

/-- C1: for every projection `p`, function `f` and argument list `xs`, the
two-argument adaptor `by(p, f)` applied to `xs` returns the same result as
invoking `f` directly on the projected arguments: each argument is
projected by the same unary `p` before `f` is invoked. -/
theorem by_call_projects_each_argument {σ α β γ : Type} (p : α → β)
    (f : List β → γ) (xs : List α) (s : σ) :
    (by_adaptor.mk (liftP p) (liftF f)).call xs s = (s, f (xs.map p)) := by
  simp [by_adaptor.call, by_eval, apply_eval, eval_each_map_project,
    project_left_to_right_pure, liftF]

/-- C4: the projection is evaluated on the arguments strictly in
left-to-right order, for both forms of `by`.  The call of `by(p, f)` equals
threading the state through `p` at each argument in list order and only then
invoking `f`, and the call of `by(p)` performs exactly that left-to-right
threading; hence every side effect of `p(x_i)` is incorporated in the state
seen by `p(x_j)` whenever `i < j`. -/
theorem by_projections_left_to_right {σ α β γ : Type} (p : σ → α → σ × β)
    (f : σ → List β → σ × γ) (xs : List α) (s : σ) :
    (by_adaptor.mk p f).call xs s =
      f (project_left_to_right p xs s).1 (project_left_to_right p xs s).2
    ∧ (by_adaptor_void.mk p).call xs s =
      ((project_left_to_right p xs s).1, ()) := by
  constructor
  · simp [by_adaptor.call, by_eval, apply_eval, eval_each_map_project]
  · induction xs generalizing s with
    | nil => rfl
    | cons x xs ih =>
      simp [by_adaptor_void.call, project_left_to_right, ih]

theorem by_adaptor_void_call_eq_by_void_eval {σ α β : Type}
    (p : σ → α → σ × β) (xs : List α) (s : σ) :
    (by_adaptor_void.mk p).call xs s = by_void_eval p xs s := by
  induction xs generalizing s with
  | nil => rfl
  | cons x xs ih =>
    simp [by_adaptor_void.call, by_void_eval, apply_eval, eval_each,
      project_void_eval] at ih ⊢
    exact ih (p s x).1

/-- C9: the unary form `by(p)` applied to arguments `xs` invokes `p` exactly
once on each argument in left-to-right order, discards the projection
results, and returns `void`.  Instrumenting the state with a trace shows the
projection is applied exactly to the argument list in order, and the fallback
path `by_void_eval` agrees with the braced-init-list path. -/
theorem by_void_call_traces_arguments {α β : Type} (p : α → β)
    (xs : List α) (t : List α) :
    (by_adaptor_void.mk (fun (s : List α) x => (s ++ [x], p x))).call xs t
      = (t ++ xs, ())
    ∧ (by_adaptor_void.mk (fun (s : List α) x => (s ++ [x], p x))).call xs t
      = by_void_eval (fun (s : List α) x => (s ++ [x], p x)) xs t := by
  refine ⟨?_, by_adaptor_void_call_eq_by_void_eval _ xs t⟩
  induction xs generalizing t with
  | nil => simp [by_adaptor_void.call]
  | cons x xs ih =>
    simp [by_adaptor_void.call, ih]

/-- Embedding of `fit::protect_adaptor<F>` (protect.h, lines 60-67): it
derives from `callable_base<F>` and adds nothing but the inherited
constructor, so it holds exactly the wrapped callable. -/
structure protect_adaptor (σ α β : Type) where
  f : σ → List α → σ × β

/-- Embedding of the call of `fit::protect_adaptor<F>`: the adaptor declares
no call operator of its own, so invoking it invokes the inherited
`callable_base<F>` directly. -/
def protect_adaptor.call {σ α β : Type} (a : protect_adaptor σ α β)
    (xs : List α) (s : σ) : σ × β :=
  a.f s xs

/-- Embedding of callable expressions as seen by `bind` and `lazy`: a
callable is either a plain function, a deferred bind expression, or a
callable masked by `protect`. -/
inductive FnExpr (σ α β : Type) where
  | plain : (σ → List α → σ × β) → FnExpr σ α β
  | bindExpr : (σ → List α → σ × β) → FnExpr σ α β
  | protect : FnExpr σ α β → FnExpr σ α β

/-- Modelled from the spec: the bind-expression trait consulted by `bind`
and `lazy` is not among the sources; protect.h documents that `protect`
"masks the type so `bind` or `lazy` no longer recognizes the function as
bind expression".  Only an unmasked bind expression is recognised. -/
def is_bind_expression {σ α β : Type} : FnExpr σ α β → Bool
  | .bindExpr _ => true
  | _ => false

/-- Invocation of a callable expression: `protect` forwards to the wrapped
expression unchanged. -/
def FnExpr.invoke {σ α β : Type} : FnExpr σ α β → List α → σ → σ × β
  | .plain f, xs, s => f s xs
  | .bindExpr f, xs, s => f s xs
  | .protect e, xs, s => e.invoke xs s

/-- C6: `protect(f)(xs...)` is observationally equal to `f(xs...)`: the
`protect_adaptor` wrapper adds no behaviour of its own (its call forwards to
the wrapped callable with the same state and arguments), and the masked
expression is no longer recognised as a bind expression while still invoking
exactly as the wrapped expression does. -/
theorem protect_call_through {σ α β : Type} (f : σ → List α → σ × β)
    (e : FnExpr σ α β) (xs : List α) (s : σ) :
    (protect_adaptor.mk f).call xs s = f s xs
    ∧ is_bind_expression (FnExpr.protect e) = false
    ∧ (FnExpr.protect e).invoke xs s = e.invoke xs s := by
  exact ⟨rfl, rfl, rfl⟩

/-- Embedding of `fit::detail::construct_f<T>::operator() const`
(construct.hpp).  The constructor of `T` on an argument pack is embedded as
a state-passing function `ctor`.  `isLiteral` selects between the two
specialisations: the literal-type specialisation (lines 153-157) returns
`T(xs...)` directly, while the generic one (lines 111-118) placement-news
`T(xs...)` into aligned storage and returns the stored object, whose value
is that of the direct construction. -/
def construct_f.call {σ α τ : Type} (isLiteral : Bool)
    (ctor : σ → List α → σ × τ) (s : σ) (xs : List α) : σ × τ :=
  if isLiteral then
    ctor s xs
  else
    let r := ctor s xs
    (r.1, r.2)

/-- Embedding of `fit::construct<T>()` (construct.hpp, lines 236-240): it
returns a default-constructed `detail::construct_f<T>`, whose invocation is
`construct_f.call`. -/
def construct {σ α τ : Type} (isLiteral : Bool)
    (ctor : σ → List α → σ × τ) (s : σ) (xs : List α) : σ × τ :=
  construct_f.call isLiteral ctor s xs

/-- C2: for every type `T` and argument list `xs` from which `T` is
constructible, `construct<T>()(xs...)` returns a value equal to `T(xs...)`:
the call of either specialisation of `construct_f` is exactly the direct
construction of `T` from the arguments, with the same effect on the state. -/
theorem construct_call_through {σ α τ : Type} (isLiteral : Bool)
    (ctor : σ → List α → σ × τ) (s : σ) (xs : List α) :
    construct isLiteral ctor s xs = ctor s xs := by
  cases isLiteral <;> rfl

/-- Embedding of the C++ types the deduction claims range over: a ground
type possibly wrapped in cv-qualifiers and references, plus `void`. -/
inductive CTy where
  | base : Nat → CTy
  | constQ : CTy → CTy
  | volatileQ : CTy → CTy
  | lref : CTy → CTy
  | rref : CTy → CTy
  | void : CTy
deriving DecidableEq

/-- Removal of a top-level reference, as `std::remove_reference`. -/
def remove_reference : CTy → CTy
  | .lref t => t
  | .rref t => t
  | t => t

/-- Removal of the top-level cv-qualifiers, as `std::remove_cv`. -/
def remove_cv : CTy → CTy
  | .constQ t => remove_cv t
  | .volatileQ t => remove_cv t
  | t => t

/-- Modelled from the spec: `fit/decay.hpp` (providing `detail::decay_mf`)
is not among the sources.  Per the spec, the template parameters of
`construct<Template>` are deduced from the decayed argument types, with
references and cv-qualifiers stripped: decay removes the reference and then
the cv-qualifiers. -/
def decay_mf (t : CTy) : CTy :=
  remove_cv (remove_reference t)

/-- Embedding of `fit::detail::construct_id` (construct.hpp): the identity
metafunction, `construct_id<T>::type = T`. -/
def construct_id (t : CTy) : CTy :=
  t

/-- Modelled from the spec: `fit/detail/remove_rvalue_reference.hpp` is not
among the sources.  It maps `T&&` to `T` and leaves every other type
unchanged. -/
def remove_rvalue_reference : CTy → CTy
  | .rref t => t
  | t => t

/-- Embedding of `fit::detail::construct_template_f<Template, D>::operator()`
(construct.hpp, lines 178-189): the result type is
`Template<typename D<Ts>::type...>` for the deduced argument types `ts`, and
the call returns `construct_f<Result>()(xs...)`.  `ctor` gives, for each
instantiated result type, the constructor of that instantiation. -/
def construct_template_f.call {σ V : Type} (isLiteral : Bool)
    (Template : List CTy → CTy) (D : CTy → CTy)
    (ctor : CTy → σ → List V → σ × V) (ts : List CTy) (s : σ)
    (xs : List V) : σ × V :=
  construct_f.call isLiteral (ctor (Template (ts.map D))) s xs

/-- Embedding of `fit::construct<Template>()` (construct.hpp, lines
254-257): `construct_template_f` with `D = detail::decay_mf`. -/
def construct_tpl {σ V : Type} (isLiteral : Bool)
    (Template : List CTy → CTy) (ctor : CTy → σ → List V → σ × V)
    (ts : List CTy) (s : σ) (xs : List V) : σ × V :=
  construct_template_f.call isLiteral Template decay_mf ctor ts s xs

/-- Embedding of `fit::construct_forward<Template>()` (construct.hpp, lines
260-263): `construct_template_f` with `D = detail::construct_id`. -/
def construct_forward_tpl {σ V : Type} (isLiteral : Bool)
    (Template : List CTy → CTy) (ctor : CTy → σ → List V → σ × V)
    (ts : List CTy) (s : σ) (xs : List V) : σ × V :=
  construct_template_f.call isLiteral Template construct_id ctor ts s xs

/-- Embedding of `fit::construct_basic<Template>()` (construct.hpp, lines
266-269): `construct_template_f` with `D = detail::remove_rvalue_reference`. -/
def construct_basic_tpl {σ V : Type} (isLiteral : Bool)
    (Template : List CTy → CTy) (ctor : CTy → σ → List V → σ × V)
    (ts : List CTy) (s : σ) (xs : List V) : σ × V :=
  construct_template_f.call isLiteral Template remove_rvalue_reference ctor ts s xs

/-- C8: `construct<Template>()(xs...)` constructs and returns
`Template<decay_t<decltype(xs)>...>(xs...)`, the template parameters being
the decayed argument types; `construct_forward<Template>` deduces them from
the exact forwarded types, and `construct_basic<Template>` only removes
rvalue references.  The decay metafunction strips the reference and the
cv-qualifiers, while `remove_rvalue_reference` strips only rvalue
references. -/
theorem construct_template_deduction {σ V : Type} (isLiteral : Bool)
    (Template : List CTy → CTy) (ctor : CTy → σ → List V → σ × V)
    (ts : List CTy) (s : σ) (xs : List V) :
    construct_tpl isLiteral Template ctor ts s xs
      = ctor (Template (ts.map decay_mf)) s xs
    ∧ construct_forward_tpl isLiteral Template ctor ts s xs
      = ctor (Template ts) s xs
    ∧ construct_basic_tpl isLiteral Template ctor ts s xs
      = ctor (Template (ts.map remove_rvalue_reference)) s xs
    ∧ (∀ t : CTy, decay_mf (CTy.lref t) = remove_cv t
        ∧ decay_mf (CTy.rref t) = remove_cv t
        ∧ decay_mf (CTy.constQ t) = remove_cv t
        ∧ remove_rvalue_reference (CTy.rref t) = t
        ∧ remove_rvalue_reference (CTy.lref t) = CTy.lref t
        ∧ remove_rvalue_reference (CTy.constQ t) = CTy.constQ t) := by
  refine ⟨?_, ?_, ?_, ?_⟩
  · cases isLiteral <;> rfl
  · have hid : List.map construct_id ts = ts := List.map_id ts
    cases isLiteral <;>
      simp [construct_forward_tpl, construct_template_f.call,
        construct_f.call, hid]
  · cases isLiteral <;> rfl
  · intro t
    refine ⟨rfl, rfl, ?_, rfl, ?_, ?_⟩ <;> cases t <;> rfl

/-- Compile-time signature of a callable: the result type of a call on a
list of argument types, or `none` when the call expression is ill-formed, in
which case the overload does not participate in overload resolution and the
program is rejected at compile time. -/
def Sig : Type :=
  List CTy → Option CTy

/-- Embedding of the constraint `FIT_ENABLE_IF_CONSTRUCTIBLE(T, Ts...)` on
`construct_f<T>::operator()` (construct.hpp, lines 111-118 and 153-157): the
call operator is visible exactly when `T` is constructible from the argument
types, and then yields `T`. -/
def construct_sig (constructible : List CTy → Bool) (T : CTy) : Sig :=
  fun ts => if constructible ts then some T else none

/-- Embedding of `FIT_SFINAE_RESULT(const callable_base<F>&,
result_of<const callable_base<Projection>&, id_<Ts>>...)` on
`by_adaptor<Projection, F>::operator()` (by.h, lines 215-224): the call
operator is visible exactly when the projection is invocable on each
argument type and the wrapped function is invocable on the projected result
types. -/
def by_sig (psig : CTy → Option CTy) (fsig : Sig) : Sig :=
  fun ts => (ts.mapM psig).bind fsig

/-- Embedding of the constraint
`class=detail::holder<decltype(std::declval<Projection>()(std::declval<Ts>()))...>`
on `by_adaptor<Projection, void>::operator()` (by.h, lines 246-248): the
call operator is visible exactly when the projection is invocable on every
argument type, and then returns `void`. -/
def by_void_sig (psig : CTy → Option CTy) : Sig :=
  fun ts => (ts.mapM psig).map (fun _ => CTy.void)

/-- Embedding of the signature of `protect_adaptor<F>` (protect.h): the
adaptor declares no call operator and no constraint of its own, so a call is
well-formed exactly when a call of the inherited `callable_base<F>` is. -/
def protect_sig (fsig : Sig) : Sig :=
  fsig

/-- Modelled from the spec: `fit/indirect.hpp` is not among the sources
(only its test is).  Per the spec, `indirect(&f)(xs...) == (*&f)(xs...)`, so
a call of the indirect adaptor is well-formed exactly when the corresponding
call of the pointee is. -/
def indirect_sig (fsig : Sig) : Sig :=
  fsig

/-- C5: for every adaptor (`construct`, `by` in both forms, `protect`,
`indirect`), the call operator participates in overload resolution exactly
when the declared constructibility or invocability constraint on the wrapped
callable holds; with any argument types violating the constraint the
signature is `none`, i.e. the invocation is rejected at compile time and no
runtime value is produced. -/
theorem adaptor_sfinae_constraints (constructible : List CTy → Bool)
    (T : CTy) (psig : CTy → Option CTy) (fsig : Sig) (ts : List CTy) :
    ((construct_sig constructible T ts).isSome ↔ constructible ts = true)
    ∧ ((by_sig psig fsig ts).isSome ↔
        ∃ rs, ts.mapM psig = some rs ∧ (fsig rs).isSome)
    ∧ ((by_void_sig psig ts).isSome ↔ (ts.mapM psig).isSome)
    ∧ ((protect_sig fsig ts).isSome ↔ (fsig ts).isSome)
    ∧ ((indirect_sig fsig ts).isSome ↔ (fsig ts).isSome) := by
  refine ⟨?_, ?_, ?_, Iff.rfl, Iff.rfl⟩
  · by_cases h : constructible ts <;> simp [construct_sig, h]
  · simp only [by_sig]
    cases hm : ts.mapM psig with
    | none => simp
    | some rs => simp
  · simp only [by_void_sig]
    cases hm : ts.mapM psig with
    | none => simp
    | some rs => simp

/-- Embedding of the `fit::indirect` adaptor, modelled from the spec:
`fit/indirect.hpp` is not among the sources (only `test/indirect.cpp` is).
The adaptor stores a raw, unique or shared pointer to the callable, embedded
as an address into a heap of object states; it does not copy the pointee. -/
structure indirect_adaptor where
  ptr : Nat

/-- Modelled from the spec: invoking the indirect adaptor dereferences the
stored pointer and invokes the pointee in place, `indirect(&f)(xs...) ==
(*&f)(xs...)`.  `op` is the call operator of the pointee class, acting on
the pointee state found in the heap at the stored address; the updated
pointee state is written back to the same address. -/
def indirect_adaptor.call {ω α β : Type} (a : indirect_adaptor)
    (op : ω → List α → ω × β) (heap : Nat → ω) (xs : List α) :
    (Nat → ω) × β :=
  let r := op (heap a.ptr) xs
  (fun n => if n = a.ptr then r.1 else heap n, r.2)

/-- C3: `indirect(&f)(xs...)` returns the same result as invoking the
pointee directly, `(*&f)(xs...)`: the result of the adaptor call is the
result of the pointee call operator applied to the object currently stored
at the pointed-to address. -/
theorem indirect_call_through {ω α β : Type} (a : indirect_adaptor)
    (op : ω → List α → ω × β) (heap : Nat → ω) (xs : List α) :
    (a.call op heap xs).2 = (op (heap a.ptr) xs).2 := by
  rfl

/-- Embedding of `mutable_function` from test/indirect.cpp: it holds an
`int value`, initially `0`, and `operator()(int a) { value += a; }`; the
unary operator is lifted to the list-of-arguments calling convention by
folding, and the test invokes it with one argument at a time. -/
def mutable_function_op (value : Int) (xs : List Int) : Int × Unit :=
  (xs.foldl (fun v a => v + a) value, ())

/-- C10: `indirect` does not copy the wrapped callable: each invocation
forwards to the original pointee, so the side effects of a mutable call
operator accumulate in the original object.  After `indirect(&mf)(15)` and
`indirect(&mf)(2)` the pointee holds `value + 17`, every other heap address
is untouched, and the address stored in the adaptor is unchanged. -/
theorem indirect_mutations_accumulate (a : indirect_adaptor)
    (heap : Nat → Int) :
    (∀ n : Nat,
      ((a.call mutable_function_op
          (a.call mutable_function_op heap [15]).1 [2]).1 n
        = if n = a.ptr then heap a.ptr + 15 + 2 else heap n))
    ∧ ((indirect_adaptor.mk a.ptr).ptr = a.ptr) := by
  refine ⟨?_, rfl⟩
  intro n
  by_cases h : n = a.ptr <;>
    simp [indirect_adaptor.call, mutable_function_op, h]

theorem by_adaptor_void_call_pure {σ α β : Type} (p : α → β) (xs : List α)
    (s : σ) :
    (by_adaptor_void.mk (liftP p : σ → α → σ × β)).call xs s = (s, ()) := by
  induction xs generalizing s with
  | nil => rfl
  | cons x xs ih => simp [by_adaptor_void.call, liftP, ih]

/-- C7: invoking an adaptor leaves the adaptor object itself unchanged: the
call operators of `construct_f`, `by_adaptor` (both forms) and
`protect_adaptor` are `const` and mutate no state of the adaptor, so with a
pure wrapped callable an invocation leaves the world state unchanged and two
invocations of the same adaptor value with equal arguments return equal
results, whatever states the two invocations start from. -/
theorem adaptor_invocation_stateless {σ α β γ δ τ : Type} (p : α → β)
    (f : List β → γ) (g : List α → δ) (c : List α → τ) (isLiteral : Bool)
    (xs : List α) (s s2 : σ) :
    ((by_adaptor.mk (liftP p) (liftF f)).call xs s).1 = s
    ∧ ((by_adaptor.mk (liftP p) (liftF f)).call xs s).2
        = ((by_adaptor.mk (liftP p) (liftF f)).call xs s2).2
    ∧ ((by_adaptor_void.mk (liftP p : σ → α → σ × β)).call xs s).1 = s
    ∧ ((protect_adaptor.mk (liftF g : σ → List α → σ × δ)).call xs s).1 = s
    ∧ ((protect_adaptor.mk (liftF g : σ → List α → σ × δ)).call xs s).2
        = ((protect_adaptor.mk (liftF g : σ → List α → σ × δ)).call xs s2).2
    ∧ (construct_f.call isLiteral (liftF c) s xs).1 = s
    ∧ (construct_f.call isLiteral (liftF c) s xs).2
        = (construct_f.call isLiteral (liftF c) s2 xs).2 := by
  refine ⟨?_, ?_, ?_, rfl, rfl, ?_, ?_⟩
  · simp [by_adaptor.call, by_eval, apply_eval, eval_each_map_project,
      project_left_to_right_pure, liftF]
  · simp [by_adaptor.call, by_eval, apply_eval, eval_each_map_project,
      project_left_to_right_pure, liftF]
  · simp [by_adaptor_void_call_pure]
  · cases isLiteral <;> rfl
  · cases isLiteral <;> rfl

end fit
